import Mathlib

/-!
Verification of the knitout interpreter's carriage-pass assembler, executer,
program container, header model and parser actions, via a shallow embedding of
the Python sources in `src/knitout_interpreter`.

Conventions of the embedding:
* machine integers are `Int`/`Nat`; rationals are `Rat`;
* Python dictionaries keyed by needles are association lists kept in insertion
  order (`List (Needle × NInstr)`);
* fallible code returns `Option` (`none` models a raised exception);
* external collaborators from the `virtual_knitting_machine` package
  (needle slot arithmetic, aligned-needle lookup, needle sorting) are modelled
  from the contract stated in the design document, as noted at each definition.
-/

/-- Carriage pass directions, from
`virtual_knitting_machine.machine_components.carriage_system.Carriage_Pass_Direction`. -/
inductive Dir where
  | leftward
  | rightward
deriving DecidableEq, Repr

/-- A needle specification `(bed, position, is_slider)`, mirroring
`Needle_Position` / `Needle_Specification` of the external machine library. -/
structure Needle where
  isFront : Bool
  position : Int
  isSlider : Bool
deriving DecidableEq, Repr

/-- Modelled from the spec (section 3, Needle specification): the effective
column of a needle at racking `r`: front needles keep their slot and back
needles shift by `r`.  This models the external `Needle.slot_by_racking`. -/
def slot_by_racking (n : Needle) (r : Int) : Int :=
  if n.isFront then n.position else n.position + r

/-- The concrete subclasses of `Needle_Instruction` in
`knitout_operations/needle_instructions.py` that can enter a carriage pass. -/
inductive NKind where
  | knit
  | tuck
  | kick
  | miss
  | xfer
  | split
  | drop
deriving DecidableEq, Repr

/-- Kinds whose class is a subclass of `Knit_Pass_Instruction`
(`Knit_Instruction`, `Tuck_Instruction`, `Kick_Instruction`). -/
def isKnitPassKind (k : NKind) : Bool :=
  match k with
  | .knit => true
  | .tuck => true
  | .kick => true
  | _ => false

/-- Kinds whose class is a subclass of `Yarn_to_Needle_Instruction`
(all directed, carrier-bearing kinds; `Xfer` and `Drop` are not). -/
def isYarnKind (k : NKind) : Bool :=
  match k with
  | .knit => true
  | .tuck => true
  | .kick => true
  | .miss => true
  | .split => true
  | _ => false

/-- Kinds whose class is a subclass of `Loop_Making_Instruction`
(`Knit_Instruction`, `Tuck_Instruction`, `Split_Instruction`). -/
def isLoopMakingKind (k : NKind) : Bool :=
  match k with
  | .knit => true
  | .tuck => true
  | .split => true
  | _ => false

/-- A needle instruction.  `dir` and `carriers` are meaningful for yarn kinds
(the Python objects simply lack those attributes otherwise, and no modelled code
path reads them for `xfer`/`drop`); `needle2` is meaningful for `xfer`/`split`;
`origLine` models `Knitout_Line._original_line_number`. -/
structure NInstr where
  kind : NKind
  needle : Needle
  dir : Dir
  carriers : List Nat
  needle2 : Option Needle
  origLine : Option Nat
deriving DecidableEq, Repr

/-- `Needle_Instruction.compatible_in_carriage_pass` resolved through Python's
method dispatch: `Knit_Pass_Instruction` (and its subclasses `Knit`, `Tuck`,
`Kick`) overrides it to `isinstance(other, Knit_Pass_Instruction)`; every other
kind uses the `Needle_Instruction` default `isinstance(other, self.__class__)`.
Since `Kick_Instruction` is declared as a subclass of both
`Knit_Pass_Instruction` and `Miss_Instruction`, a `kick` satisfies
`isinstance(·, Miss_Instruction)`. -/
def compatible_in_carriage_pass (a b : NKind) : Bool :=
  match a with
  | .knit => isKnitPassKind b
  | .tuck => isKnitPassKind b
  | .kick => isKnitPassKind b
  | .miss => b == .miss || b == .kick
  | .xfer => b == .xfer
  | .split => b == .split
  | .drop => b == .drop

/-- The compatibility relation described by the spec (section 4.6, rule 3):
knit-pass kinds are mutually compatible; other kinds only with themselves. -/
def spec_compatible (a b : NKind) : Bool :=
  (isKnitPassKind a && isKnitPassKind b) || a == b

/-- `Carriage_Pass` of `knitout_execution_structures/Carriage_Pass.py`:
racking, all-needle flag, the ordered `_instructions` list and the
insertion-ordered `_needles_to_instruction` dictionary.  (The
`_instruction_types_to_needles` bookkeeping dictionary is not modelled: no
claim observes it.) -/
structure CarriagePass where
  rack : Int
  allNeedle : Bool
  instructions : List NInstr
  needleMap : List (Needle × NInstr)
deriving DecidableEq, Repr

/-- `Carriage_Pass.__init__`: a pass seeded with its first instruction. -/
def mkCarriagePass (first : NInstr) (rack : Int) (allNeedle : Bool) : CarriagePass :=
  { rack := rack
    allNeedle := allNeedle
    instructions := [first]
    needleMap := [(first.needle, first)] }

/-- Dictionary-key membership for `_needles_to_instruction`. -/
def needleInMap (n : Needle) (m : List (Needle × NInstr)) : Bool :=
  m.any (fun p => p.1 == n)

/-- `Carriage_Pass.first_instruction` (`_instructions[0]`). -/
def first_instruction (cp : CarriagePass) : Option NInstr :=
  cp.instructions.head?

/-- `Carriage_Pass.last_needle` (needle of `_instructions[-1]`). -/
def last_needle (cp : CarriagePass) : Option Needle :=
  (cp.instructions.getLast?).map (·.needle)

/-- `Carriage_Pass.can_add_instruction`.  The source raises `IndexError` on an
empty pass (impossible by construction); the model returns `false` there. -/
def can_add_instruction (cp : CarriagePass) (i : NInstr) (rack : Int) (allNeedleRack : Bool) : Bool :=
  match first_instruction cp, last_needle cp with
  | some first, some lastN =>
    if rack != cp.rack || allNeedleRack != cp.allNeedle
        || needleInMap i.needle cp.needleMap
        || !compatible_in_carriage_pass first.kind i.kind then
      false
    else if isYarnKind first.kind && isYarnKind i.kind then
      if first.dir != i.dir || first.carriers != i.carriers then
        false
      else if cp.allNeedle && i.needle.isFront != lastN.isFront
          && slot_by_racking i.needle cp.rack == slot_by_racking lastN cp.rack then
        true
      else if first.dir == Dir.leftward then
        slot_by_racking lastN cp.rack > slot_by_racking i.needle cp.rack
      else
        slot_by_racking lastN cp.rack < slot_by_racking i.needle cp.rack
    else
      true
  | _, _ => false

/-- `Carriage_Pass.add_instruction`: attempt to append, returning whether the
instruction was added together with the (possibly unchanged) pass. -/
def add_instruction (cp : CarriagePass) (i : NInstr) (rack : Int) (allNeedleRack : Bool) :
    Bool × CarriagePass :=
  if can_add_instruction cp i rack allNeedleRack then
    (true,
      { cp with
        instructions := cp.instructions ++ [i]
        needleMap := cp.needleMap ++ [(i.needle, i)] })
  else
    (false, cp)

/-- `Carriage_Pass.can_merge_pass`. -/
def can_merge_pass (cp next : CarriagePass) : Bool :=
  match first_instruction next with
  | some f => can_add_instruction cp f next.rack next.allNeedle
  | none => false

/-- The instruction-adding loop of `Carriage_Pass.merge_carriage_pass`;
`none` models the `assert added` failure. -/
def merge_add_loop (cp : CarriagePass) (is : List NInstr) (rack : Int) (allNeedleRack : Bool) :
    Option CarriagePass :=
  match is with
  | [] => some cp
  | i :: rest =>
    let r := add_instruction cp i rack allNeedleRack
    if r.1 then merge_add_loop r.2 rest rack allNeedleRack else none

/-- `Carriage_Pass.merge_carriage_pass`: `some (false, cp)` when the merge is
refused without mutation, `some (true, merged)` on success, `none` when the
internal assertion would fire. -/
def merge_carriage_pass (cp next : CarriagePass) : Option (Bool × CarriagePass) :=
  if !can_merge_pass cp next then
    some (false, cp)
  else
    (merge_add_loop cp next.instructions next.rack next.allNeedle).map (fun p => (true, p))

/-- `Carriage_Pass.needle_slots` membership: true when some instruction of the
pass sits on the given slot under the pass racking
(`Carriage_Pass.instruction_on_slot` with an integer argument). -/
def instruction_on_slot (cp : CarriagePass) (slot : Int) : Bool :=
  cp.instructions.any (fun i => slot_by_racking i.needle cp.rack == slot)

/-- One step of building a Python dictionary keyed by needles: a present key
keeps its place but its value is replaced; a new key is appended. -/
def dictInsert (acc : List NInstr) (i : NInstr) : List NInstr :=
  if acc.any (fun j => j.needle == i.needle) then
    acc.map (fun j => if j.needle == i.needle then i else j)
  else
    acc ++ [i]

/-- Python dictionary-comprehension semantics for `{i.needle: i for i in xs}`
read back in key order: keys keep the order of their first occurrence and map
to the value of their last occurrence. -/
def dedupKeyed (l : List NInstr) : List NInstr :=
  l.foldl dictInsert []

/-- Slot order of a carriage-pass direction: rightward ascending, leftward
descending. -/
def dirSlotLe (d : Dir) (x y : Int) : Prop :=
  match d with
  | .rightward => x ≤ y
  | .leftward => y ≤ x

instance (d : Dir) (x y : Int) : Decidable (dirSlotLe d x y) :=
  match d with
  | .rightward => inferInstanceAs (Decidable (x ≤ y))
  | .leftward => inferInstanceAs (Decidable (y ≤ x))

/-- Modelled from the spec (section 4.6): the external
`Carriage_Pass_Direction.sort_needles` re-sorts instructions by slot in the
direction's order; modelled as a stable insertion sort on
`slot_by_racking`. -/
def sortInstructionsByDir (d : Dir) (rack : Int) (xs : List NInstr) : List NInstr :=
  xs.insertionSort (fun a b => dirSlotLe d (slot_by_racking a.needle rack) (slot_by_racking b.needle rack))

/-- `Carriage_Pass.add_kicks`: `none` models the `ValueError`/`IndexError`
raises (non-knit-pass class, an occupied slot, or a foreign carrier set);
otherwise the instruction list is rebuilt sorted in the direction of the
pass's first instruction and the needle dictionary is rebuilt from it. -/
def add_kicks (cp : CarriagePass) (kicks : List NInstr) : Option CarriagePass :=
  match first_instruction cp with
  | none => none
  | some first =>
    if !isKnitPassKind first.kind then
      none
    else if kicks.any (fun k => instruction_on_slot cp k.needle.position) then
      none
    else if kicks.any (fun k => k.carriers != first.carriers) then
      none
    else
      let sorted := sortInstructionsByDir first.dir cp.rack (dedupKeyed (cp.instructions ++ kicks))
      some
        { cp with
          instructions := sorted
          needleMap := sorted.map (fun i => (i.needle, i)) }

/-- The consecutive-instruction ordering property claimed for directed passes
(spec section 8, invariant 3): all-needle opposite-bed same-slot, or strictly
increasing slots for a rightward pass, or strictly decreasing for leftward. -/
def goodStep (d : Dir) (rack : Int) (allNeedle : Bool) (a b : NInstr) : Prop :=
  (allNeedle = true ∧ a.needle.isFront ≠ b.needle.isFront
      ∧ slot_by_racking a.needle rack = slot_by_racking b.needle rack)
  ∨ (d = Dir.rightward ∧ slot_by_racking a.needle rack < slot_by_racking b.needle rack)
  ∨ (d = Dir.leftward ∧ slot_by_racking b.needle rack < slot_by_racking a.needle rack)

instance (d : Dir) (rack : Int) (an : Bool) (a b : NInstr) :
    Decidable (goodStep d rack an a b) :=
  inferInstanceAs (Decidable
    ((an = true ∧ a.needle.isFront ≠ b.needle.isFront
        ∧ slot_by_racking a.needle rack = slot_by_racking b.needle rack)
      ∨ (d = Dir.rightward ∧ slot_by_racking a.needle rack < slot_by_racking b.needle rack)
      ∨ (d = Dir.leftward ∧ slot_by_racking b.needle rack < slot_by_racking a.needle rack)))

/-- The direction of a pass: the direction of its first instruction — the
only operational notion of pass direction in the source (`sorted_needles` and
`add_kicks` both read `self.first_instruction.direction`).  The value for an
empty pass is immaterial (an empty pass satisfies any chain). -/
def passDir (cp : CarriagePass) : Dir :=
  match first_instruction cp with
  | some f => f.dir
  | none => Dir.rightward

/-- Boolean form of `goodStep`. -/
def goodStepB (d : Dir) (rack : Int) (allNeedle : Bool) (a b : NInstr) : Bool :=
  (allNeedle && (a.needle.isFront != b.needle.isFront)
      && (slot_by_racking a.needle rack == slot_by_racking b.needle rack))
  || (d == Dir.rightward && decide (slot_by_racking a.needle rack < slot_by_racking b.needle rack))
  || (d == Dir.leftward && decide (slot_by_racking b.needle rack < slot_by_racking a.needle rack))

/-- Boolean chain test: every two consecutive list entries are related. -/
def chainB (R : NInstr → NInstr → Bool) : List NInstr → Bool
  | [] => true
  | [_] => true
  | a :: b :: t => R a b && chainB R (b :: t)

/-- A carriage pass satisfies the claimed invariant when its consecutive
instructions are pairwise `goodStep` under the pass direction, racking and
all-needle flag. -/
def goodPass (cp : CarriagePass) : Prop :=
  chainB (goodStepB (passDir cp) cp.rack cp.allNeedle) cp.instructions = true

instance (cp : CarriagePass) : Decidable (goodPass cp) :=
  inferInstanceAs (Decidable (_ = true))

/-- The shape invariant of `Kick_Instruction` objects: kind `kick` and a
non-slider front-bed needle (enforced by `Kick_Instruction.__init__`). -/
def isKickShaped (k : NInstr) : Prop :=
  k.kind = NKind.kick ∧ k.needle.isFront = true ∧ k.needle.isSlider = false

/-! ### Program lines and the program container (`knitout_program.py`) -/

/-- The header-line kinds of `Header_Line.Knitout_Header_Line_Type`. -/
inductive HKind where
  | machine
  | gauge
  | position
  | carriers
  | version
deriving DecidableEq, Repr

/-- The carrier-instruction kinds of `carrier_instructions.py`. -/
inductive CKind where
  | inOp
  | inhook
  | releasehook
  | out
  | outhook
deriving DecidableEq, Repr

/-- A knitout line (`Knitout_Line` and its subclasses), as stored in a
`Knitout_Program`.  Comments, no-ops and breakpoints are
`Knitout_Comment_Line`s; header and version lines are `Knitout_Header_Line`s;
the rest are `Knitout_Instruction`s.  The content a no-op comment wraps is not
modelled at the program-container level (no claim about the container reads
it). -/
inductive KLine where
  | needleLine (i : NInstr)
  | pauseLine (origLine : Option Nat)
  | commentLine (text : String) (origLine : Option Nat)
  | noOpLine (origLine : Option Nat)
  | breakpointLine (text : String) (origLine : Option Nat)
  | headerLine (hk : HKind) (v : Int) (origLine : Option Nat)
  | versionLine (v : Int) (origLine : Option Nat)
  | carrierLine (ck : CKind) (c : Nat) (origLine : Option Nat)
  | rackLine (r : Int) (allNeedle : Bool) (origLine : Option Nat)
deriving DecidableEq, Repr

/-- `isinstance(line, Knitout_Instruction)`. -/
def isInstructionLine (l : KLine) : Bool :=
  match l with
  | .needleLine _ => true
  | .pauseLine _ => true
  | .carrierLine _ _ _ => true
  | .rackLine _ _ _ => true
  | _ => false

/-- `isinstance(line, Knitout_Comment_Line)` (no-ops and breakpoints are
comment subclasses). -/
def isCommentLine (l : KLine) : Bool :=
  match l with
  | .commentLine _ _ => true
  | .noOpLine _ => true
  | .breakpointLine _ _ => true
  | _ => false

/-- `isinstance(line, Knitout_Header_Line)`; `Knitout_Version_Line` is a
`Knitout_Header_Line` subclass. -/
def isHeaderish (l : KLine) : Bool :=
  match l with
  | .headerLine _ _ _ => true
  | .versionLine _ _ => true
  | _ => false

/-- `isinstance(line, Pause_Instruction)`. -/
def isPauseLine (l : KLine) : Bool :=
  match l with
  | .pauseLine _ => true
  | _ => false

/-- `isinstance(line, Knitout_No_Op)`. -/
def isNoOpLine (l : KLine) : Bool :=
  match l with
  | .noOpLine _ => true
  | _ => false

/-- `isinstance(line, Knitout_BreakPoint)`. -/
def isBreakpointLine (l : KLine) : Bool :=
  match l with
  | .breakpointLine _ _ => true
  | _ => false

/-- `isinstance(line, Loop_Making_Instruction)` (`Knit`, `Tuck`, `Split`). -/
def isLoopMakingLine (l : KLine) : Bool :=
  match l with
  | .needleLine i => isLoopMakingKind i.kind
  | _ => false

/-- `Knitout_Program.instructions`: the instructions of the program. -/
def programInstructions (p : List KLine) : List KLine :=
  p.filter isInstructionLine

/-- `Knitout_Program.program_body`: instructions and comments. -/
def programBody (p : List KLine) : List KLine :=
  p.filter (fun l => isInstructionLine l || isCommentLine l)

/-- `Knitout_Program.header`: all `Knitout_Header_Line`s (version lines
included, since `Knitout_Version_Line` subclasses `Knitout_Header_Line`). -/
def programHeaderLines (p : List KLine) : List KLine :=
  p.filter isHeaderish

/-- `Knitout_Program.version_line`: the first version line of the program, or
a freshly created default one. -/
def programVersionLine (p : List KLine) (defaultVersion : Int) : KLine :=
  (p.find? (fun l => match l with | .versionLine _ _ => true | _ => false)).getD
    (.versionLine defaultVersion none)

/-- `Knitout_Program.next_loop_forming_instruction_index`, exactly as coded:
`next((i + index for i, line in enumerate(self._program[index + 1:]) if
isinstance(line, Loop_Making_Instruction)), None)`. -/
def next_loop_forming_instruction_index (p : List KLine) (index : Nat) : Option Nat :=
  ((p.drop (index + 1)).findIdx? isLoopMakingLine).map (fun i => i + index)

/-- `Knitout_Program.organize_program`.  The final `_update_line_numbers` pass
only rewrites current line numbers (not modelled on lines) and touches no
object identity, so it is the identity here. -/
def organize_program (p : List KLine) (defaultVersion : Int)
    (removeComments removeNoOp removePause removeBreakpoint : Bool) : List KLine :=
  let body := if removeComments then programInstructions p else programBody p
  let organized := programVersionLine p defaultVersion :: (programHeaderLines p ++ body)
  let organized :=
    if !removeComments && removeNoOp then
      organized.filter (fun l => !isNoOpLine l)
    else
      organized
  let organized :=
    if removeBreakpoint then organized.filter (fun l => !isBreakpointLine l) else organized
  if removePause then organized.filter (fun l => !isPauseLine l) else organized

/-! ### The header model (`knitout_header.py`) -/

/-- A `Knitout_Header_Line` as compared by its `__eq__`: subclass (named by the
header kind) and header value.  Values of enumerated header types are
abstracted as integers. -/
structure HLine where
  kind : HKind
  value : Int
deriving DecidableEq, Repr

/-- The `_header_lines` dictionary of `Knitting_Machine_Header`, in insertion
order. -/
def HeaderDict := List (HKind × HLine)
deriving DecidableEq

/-- Dictionary lookup on `_header_lines`. -/
def headerLookup (h : List (HKind × HLine)) (k : HKind) : Option HLine :=
  (h.find? (fun p => p.1 == k)).map (·.2)

/-- Dictionary store `self._header_lines[k] = line` (replace in place, or
append a new key). -/
def headerStore (h : List (HKind × HLine)) (k : HKind) (line : HLine) : List (HKind × HLine) :=
  if h.any (fun p => p.1 == k) then
    h.map (fun p => if p.1 == k then (k, line) else p)
  else
    h ++ [(k, line)]

/-- `Knitting_Machine_Header._update_header`. -/
def update_header (h : List (HKind × HLine)) (line : HLine) : List (HKind × HLine) × Bool :=
  match headerLookup h line.kind with
  | none => (headerStore h line.kind line, true)
  | some current =>
    if line != current then (headerStore h line.kind line, true) else (h, false)

/-- The generator consumption performed by `any(self._update_header(l) for l in
program.header)`: Python's `any` stops at the first `True`, so header lines
after the first updating one are never processed. -/
def extract_header_loop (h : List (HKind × HLine)) : List HLine → Bool × List (HKind × HLine)
  | [] => (false, h)
  | l :: rest =>
    let r := update_header h l
    if r.2 then (true, r.1) else extract_header_loop r.1 rest

/-- The header lines of a program as `HLine`s, in program order. -/
def programHeaderHLines (p : List KLine) : List HLine :=
  p.filterMap (fun l =>
    match l with
    | .headerLine hk v _ => some ⟨hk, v⟩
    | .versionLine v _ => some ⟨HKind.version, v⟩
    | _ => none)

/-- `Knitting_Machine_Header.extract_header`. -/
def extract_header (h : List (HKind × HLine)) (p : List KLine) : Bool × List (HKind × HLine) :=
  extract_header_loop h (programHeaderHLines p)

/-- The behaviour the spec describes for header extraction (section 4.3):
every header line is processed in program order, each replacing the stored
entry when its value differs, and the extraction reports whether any entry
changed. -/
def extract_header_all (h : List (HKind × HLine)) (p : List KLine) : Bool × List (HKind × HLine) :=
  (programHeaderHLines p).foldl
    (fun acc l =>
      let r := update_header acc.2 l
      (acc.1 || r.2, r.1))
    (false, h)

/-- `Knitting_Machine_Header.set_header_by_specification` applied to the
default machine specification, abstracting the enumerated defaults of the
external `Knitting_Machine_Specification` as given integers. -/
def default_header (machineV gaugeV positionV carriersV versionV : Int) : List (HKind × HLine) :=
  [(HKind.machine, ⟨HKind.machine, machineV⟩),
   (HKind.gauge, ⟨HKind.gauge, gaugeV⟩),
   (HKind.position, ⟨HKind.position, positionV⟩),
   (HKind.carriers, ⟨HKind.carriers, carriersV⟩),
   (HKind.version, ⟨HKind.version, versionV⟩)]

/-! ### Two-needle alignment validation (`needle_instructions.py`) -/

/-- Modelled from the spec (section 4.4, `get_aligned_needle`): the
opposite-bed needle aligned to `n` under racking `r`, with the requested
slider flag.  Aligned means equal `slot_by_racking`: front `p` aligns with
back `p - r`. -/
def get_aligned_needle (r : Int) (n : Needle) (alignedSlider : Bool) : Needle :=
  if n.isFront then
    { isFront := false, position := n.position - r, isSlider := alignedSlider }
  else
    { isFront := true, position := n.position + r, isSlider := alignedSlider }

/-- Python's numeric coercion of a `bool` compared against an `int`
(`True == 1`, `False == 0`). -/
def pyBoolAsInt (b : Bool) : Int :=
  if b then 1 else 0

/-- The raise condition of `Two_Needle_Instruction._validate_aligned_needle`,
exactly as coded: `aligned_needle.position != self.needle_2.position and
aligned_needle.is_front != self.needle_2.position` — note the second conjunct
compares the aligned needle's boolean bed against the second needle's integer
position. -/
def validate_aligned_needle_raises (r : Int) (n n2 : Needle) : Bool :=
  let aligned := get_aligned_needle r n n2.isSlider
  (aligned.position != n2.position) && (pyBoolAsInt aligned.isFront != n2.position)

/-- The validation the claim (and the docstring of
`_validate_aligned_needle`) describes: the stored second needle disagrees
with the aligned needle in position or bed. -/
def aligned_needle_mismatch (r : Int) (n n2 : Needle) : Bool :=
  let aligned := get_aligned_needle r n n2.isSlider
  (aligned.position != n2.position) || (aligned.isFront != n2.isFront)

/-! ### Rack parsing (`knitout_language/knitout_actions.py`) -/

/-- Reads a digit list as a natural number. -/
def digitsToNat (cs : List Char) : Nat :=
  cs.foldl (fun acc c => acc * 10 + (c.toNat - 48)) 0

/-- `float_exp` of `knitout_actions.py`: keep digit, dot and minus characters
and convert with `float(...)`; the conversion of a well-formed decimal token
`[-]d₁…dₘ[.e₁…eₙ]` is modelled exactly as the rational
`±(d·10ⁿ + e) / 10ⁿ`. -/
def float_exp (s : String) : Rat :=
  let kept := s.data.filter (fun c => c.isDigit || c == '.' || c == '-')
  let neg := kept.head? == some '-'
  let digitsOnly := kept.filter (fun c => c != '-')
  let intPart := digitsOnly.takeWhile (fun c => c != '.')
  let fracPart := ((digitsOnly.dropWhile (fun c => c != '.')).drop 1).filter Char.isDigit
  let mag : Rat :=
    mkRat (digitsToNat intPart * 10 ^ fracPart.length + digitsToNat fracPart)
      (10 ^ fracPart.length)
  if neg then -mag else mag

/-- Floor of a rational as an integer (`⌊q⌋`), computed by floor division of
the reduced numerator by the (positive) denominator. -/
def ratFloor (q : Rat) : Int :=
  q.num.fdiv (q.den : Int)

/-- Modelled from the spec: `Rack_Instruction` (its module
`knitout_operations/Rack_Instruction.py` is absent from `src/`).  Per section
4.1: with `frac = value - ⌊value⌋`, `all_needle = frac ∈ {0.25, 0.5, 0.75}`,
and the stored integer rack is `⌊value + 0.5⌋` for non-negative values and
`⌊value⌋` for negative values (for a negative integer the two readings of the
spec's rule agree, since `⌊value⌋ = value`).  The arithmetic is rendered on
the reduced fraction `num/den` of the value: `value - ⌊value⌋ =
(num fmod den)/den`, `value ≥ 0` iff `num ≥ 0`, and `⌊value + 1/2⌋ =
(2·num + den) fdiv (2·den)`. -/
def rack_value_to_int_and_all_needle (q : Rat) : Int × Bool :=
  let fl := ratFloor q
  let frac : Rat := mkRat (q.num.fmod (q.den : Int)) q.den
  let allNeedle := frac == mkRat 1 4 || frac == mkRat 1 2 || frac == mkRat 3 4
  let rackInt : Int :=
    if 0 ≤ q.num then (2 * q.num + (q.den : Int)).fdiv (2 * (q.den : Int)) else fl
  (rackInt, allNeedle)

/-- `rack_op` of `knitout_actions.py` composed with the rack-value rounding of
the modelled `Rack_Instruction`: the integer rack and all-needle flag parsed
from a rack value token. -/
def rack_op (s : String) : Int × Bool :=
  rack_value_to_int_and_all_needle (float_exp s)

/-! ### The executer (`knitout_execution.py`) -/

/-- An entry of the executed program: a line appended as itself, or a
`Knitout_No_Op` comment wrapping a line. -/
inductive EEntry where
  | line (l : KLine)
  | noOpOf (l : KLine)
deriving DecidableEq, Repr

/-- An entry of `Knitout_Executer.process`: a stand-alone instruction or a
carriage pass. -/
inductive ProcEntry where
  | instr (l : KLine)
  | pass (cp : CarriagePass)
deriving DecidableEq, Repr

/-- The contract the executer consumes from the external virtual knitting
machine (spec section 4.4): per-line execution returning the updated machine
and whether the state changed, the `will_update_machine_state` predicate, and
the current racking state. -/
structure MachineModel (M : Type) where
  exec : M → KLine → M × Bool
  willUpdate : M → KLine → Bool
  rackOf : M → Int
  allNeedleOf : M → Bool

/-- The mutable state of a `Knitout_Executer` during
`test_and_organize_instructions` (snapshot bookkeeping is not modelled: no
claim observes it). -/
structure ExecState (M : Type) where
  machine : M
  process : List ProcEntry
  carriagePasses : List CarriagePass
  executed : List EEntry
  currentCP : Option CarriagePass
  startingNewCP : Bool

/-- `Knitout_Line.has_line_number` for the executer's lines. -/
def lineOrig (l : KLine) : Option Nat :=
  match l with
  | .needleLine i => i.origLine
  | .pauseLine ln => ln
  | .commentLine _ ln => ln
  | .noOpLine ln => ln
  | .breakpointLine _ ln => ln
  | .headerLine _ _ ln => ln
  | .versionLine _ ln => ln
  | .carrierLine _ _ ln => ln
  | .rackLine _ _ ln => ln

/-- `isinstance(instruction, (Knitout_Comment_Line | Pause_Instruction))`. -/
def isCommentOrPause (l : KLine) : Bool :=
  isCommentLine l || isPauseLine l

/-- `isinstance(instruction, Needle_Instruction)`. -/
def isNeedleLine (l : KLine) : Bool :=
  match l with
  | .needleLine _ => true
  | _ => false

/-- `Knitout_Executer._execute_and_add_instruction`. -/
def execute_and_add_instruction {M : Type} (model : MachineModel M) (s : ExecState M)
    (l : KLine) : ExecState M :=
  if isCommentOrPause l then
    { s with executed := s.executed ++ [EEntry.line l] }
  else
    let r := model.exec s.machine l
    if r.2 then
      { s with
        machine := r.1
        process := if !isNeedleLine l then s.process ++ [ProcEntry.instr l] else s.process
        executed := s.executed ++ [EEntry.line l] }
    else if (lineOrig l).isSome then
      { s with machine := r.1, executed := s.executed ++ [EEntry.noOpOf l] }
    else
      { s with machine := r.1 }

/-- `Knitout_Executer._execute_current_carriage_pass`.  The synthetic rack
instruction of `Carriage_Pass.rack_instruction` carries no original line
number.  (The `direction = Rightward` tag written onto xfer passes only
annotates the pass object and changes no behaviour modelled here.) -/
def execute_current_carriage_pass {M : Type} (model : MachineModel M) (s : ExecState M)
    (nextCPInstruction : Option NInstr) : ExecState M :=
  match s.currentCP with
  | none => s
  | some cp =>
    let s := execute_and_add_instruction model s (KLine.rackLine cp.rack cp.allNeedle none)
    let s := { s with startingNewCP := true }
    let s := cp.instructions.foldl
      (fun acc i =>
        let acc := execute_and_add_instruction model acc (KLine.needleLine i)
        { acc with startingNewCP := false })
      s
    let s :=
      { s with
        process := s.process ++ [ProcEntry.pass cp]
        carriagePasses := s.carriagePasses ++ [cp] }
    match nextCPInstruction with
    | some i =>
      { s with
        currentCP := some (mkCarriagePass i (model.rackOf s.machine) (model.allNeedleOf s.machine)) }
    | none => { s with currentCP := none }

/-- `Knitout_Executer._process_next_instruction`. -/
def process_next_instruction {M : Type} (model : MachineModel M) (s : ExecState M)
    (l : KLine) : ExecState M :=
  if isCommentOrPause l then
    { s with executed := s.executed ++ [EEntry.line l] }
  else
    match l with
    | .needleLine i =>
      match s.currentCP with
      | none =>
        { s with
          currentCP := some (mkCarriagePass i (model.rackOf s.machine) (model.allNeedleOf s.machine)) }
      | some cp =>
        let r := add_instruction cp i (model.rackOf s.machine) (model.allNeedleOf s.machine)
        if r.1 then
          { s with currentCP := some r.2 }
        else
          execute_current_carriage_pass model s (some i)
    | _ =>
      if model.willUpdate s.machine l then
        let s := execute_current_carriage_pass model s none
        execute_and_add_instruction model s l
      else
        s

/-- `Knitout_Executer.test_and_organize_instructions` restricted to the body
run: process every body line in order, then `_end_program`. -/
def run_executer {M : Type} (model : MachineModel M) (m0 : M) (body : List KLine) :
    ExecState M :=
  let s0 : ExecState M :=
    { machine := m0
      process := []
      carriagePasses := []
      executed := []
      currentCP := none
      startingNewCP := false }
  let s := body.foldl (process_next_instruction model) s0
  execute_current_carriage_pass model s none

/-- A small concrete machine standing in for the external virtual knitting
machine in concrete runs: racking state plus the set of active carriers. -/
structure SimpleMachine where
  rack : Int
  allNeedle : Bool
  active : List Nat
deriving DecidableEq, Repr

/-- Execution semantics of the simple machine: rack lines set the racking and
report whether it changed; `in`/`inhook` activate their carrier and report
whether it was inactive; `out`/`outhook` deactivate and report whether it was
active; needle lines always report an update. -/
def simpleExec (m : SimpleMachine) (l : KLine) : SimpleMachine × Bool :=
  match l with
  | .rackLine r an _ =>
    ({ m with rack := r, allNeedle := an }, r != m.rack || an != m.allNeedle)
  | .carrierLine ck c _ =>
    match ck with
    | .inOp => ({ m with active := if m.active.contains c then m.active else m.active ++ [c] },
        !m.active.contains c)
    | .inhook => ({ m with active := if m.active.contains c then m.active else m.active ++ [c] },
        !m.active.contains c)
    | .out => ({ m with active := m.active.filter (fun x => x != c) }, m.active.contains c)
    | .outhook => ({ m with active := m.active.filter (fun x => x != c) }, m.active.contains c)
    | .releasehook => (m, true)
  | .needleLine _ => (m, true)
  | _ => (m, false)

/-- `will_update_machine_state` of the simple machine, matching
`carrier_instructions.py`: `in`/`inhook` update when the carrier is inactive,
`out`/`outhook` when it is active, `releasehook` when a carrier is hooked
(simplified to always); rack lines when the racking would change. -/
def simpleWillUpdate (m : SimpleMachine) (l : KLine) : Bool :=
  match l with
  | .rackLine r an _ => r != m.rack || an != m.allNeedle
  | .carrierLine ck c _ =>
    match ck with
    | .inOp => !m.active.contains c
    | .inhook => !m.active.contains c
    | .out => m.active.contains c
    | .outhook => m.active.contains c
    | .releasehook => true
  | _ => true

/-- The simple machine packaged as a `MachineModel`. -/
def simpleModel : MachineModel SimpleMachine :=
  { exec := simpleExec
    willUpdate := simpleWillUpdate
    rackOf := SimpleMachine.rack
    allNeedleOf := SimpleMachine.allNeedle }

/-- Carriage passes built through the public construction interface
(`__init__`, `add_instruction`, `merge_carriage_pass`, `add_kicks`), where
every added kick carries the direction of the pass's first instruction. -/
inductive BuiltPass : CarriagePass → Prop where
  | single (i : NInstr) (rack : Int) (an : Bool) : BuiltPass (mkCarriagePass i rack an)
  | add (cp : CarriagePass) (i : NInstr) (rack : Int) (an : Bool) :
      BuiltPass cp → BuiltPass (add_instruction cp i rack an).2
  | merge (cp next p : CarriagePass) (b : Bool) :
      BuiltPass cp → BuiltPass next →
      merge_carriage_pass cp next = some (b, p) → BuiltPass p
  | kicks (cp p : CarriagePass) (ks : List NInstr) (first : NInstr) :
      BuiltPass cp → first_instruction cp = some first →
      (∀ k ∈ ks, isKickShaped k ∧ k.dir = first.dir) →
      add_kicks cp ks = some p → BuiltPass p

/-- Whether a pass is of a directed class (knit-pass, Split or Miss): its
first instruction is of a yarn-to-needle kind. -/
def directedPassB (cp : CarriagePass) : Bool :=
  match first_instruction cp with
  | some f => isYarnKind f.kind
  | none => false

/-- A pass of a directed class (knit-pass, Split or Miss). -/
def directedPass (cp : CarriagePass) : Prop :=
  directedPassB cp = true

instance (cp : CarriagePass) : Decidable (directedPass cp) :=
  inferInstanceAs (Decidable (directedPassB cp = true))

/-- The internal invariant of carriage passes maintained by the construction
interface: a nonempty instruction list, pairwise-distinct needles, a needle
dictionary keyed exactly by the instructions' needles, and — for directed
passes — a homogeneous direction and the consecutive-ordering property. -/
def passInv (cp : CarriagePass) : Prop :=
  cp.instructions ≠ [] ∧
  (cp.instructions.map (·.needle)).Nodup ∧
  cp.needleMap.map Prod.fst = cp.instructions.map (·.needle) ∧
  ∀ f, first_instruction cp = some f → isYarnKind f.kind = true →
    (∀ i ∈ cp.instructions, i.dir = f.dir) ∧
    List.Chain' (goodStep f.dir cp.rack cp.allNeedle) cp.instructions

/-! ## Theorems -/

/-! ### Helper facts about line classification -/

theorem headerish_not_instruction (l : KLine) (h : isHeaderish l = true) :
    isInstructionLine l = false := by
  cases l <;> simp_all [isHeaderish, isInstructionLine]

theorem instruction_not_breakpoint (l : KLine) (h : isInstructionLine l = true) :
    isBreakpointLine l = false := by
  cases l <;> simp_all [isInstructionLine, isBreakpointLine]

theorem version_line_not_instruction (p : List KLine) (dv : Int) :
    isInstructionLine (programVersionLine p dv) = false := by
  unfold programVersionLine
  cases hf : p.find? (fun l => match l with | .versionLine _ _ => true | _ => false) with
  | none => simp [isInstructionLine]
  | some a =>
    have := List.find?_some hf
    simp only [Option.getD_some]
    cases a <;> simp_all [isInstructionLine]

/-- C5 counterexample: `compatible_in_carriage_pass` disagrees with the
claimed characterisation at the pair (Miss, Kick): the code accepts it (a
`Kick_Instruction` is a `Miss_Instruction` subclass) while the claim says a
Miss is not compatible with a Kick; the relation is also asymmetric there. -/
theorem c5_miss_kick_counterexample :
    compatible_in_carriage_pass NKind.miss NKind.kick = true ∧
    spec_compatible NKind.miss NKind.kick = false ∧
    compatible_in_carriage_pass NKind.kick NKind.miss = false := by
  decide

/-- C5 (amended): `a.compatible_in_carriage_pass(b)` holds exactly when both
kinds are knit-pass kinds, or the kinds coincide, or `a` is a Miss and `b` a
Kick; hence the relation is symmetric except on the (Miss, Kick) pair. -/
theorem c5_compatibility_characterisation (a b : NKind) :
    compatible_in_carriage_pass a b =
      (spec_compatible a b || (a == NKind.miss && b == NKind.kick)) := by
  cases a <;> cases b <;> decide

/-- C10: `add_instruction` returns true and appends the instruction to the
instruction list and the needle map exactly when `can_add_instruction` holds
for the same arguments; when it returns false the pass is unchanged. -/
theorem c10_add_instruction_spec (cp : CarriagePass) (i : NInstr) (r : Int) (an : Bool) :
    ((add_instruction cp i r an).1 = true ↔ can_add_instruction cp i r an = true) ∧
    (can_add_instruction cp i r an = true →
      (add_instruction cp i r an).2.instructions = cp.instructions ++ [i] ∧
      (add_instruction cp i r an).2.needleMap = cp.needleMap ++ [(i.needle, i)]) ∧
    (can_add_instruction cp i r an = false → (add_instruction cp i r an).2 = cp) := by
  by_cases h : can_add_instruction cp i r an = true
  · simp [add_instruction, h]
  · simp only [Bool.not_eq_true] at h
    simp [add_instruction, h]

theorem c10_add_instruction_spec_witness :
    can_add_instruction
        (mkCarriagePass
          { kind := NKind.knit, needle := ⟨true, 2, false⟩, dir := Dir.rightward,
            carriers := [1], needle2 := none, origLine := some 0 } 0 false)
        { kind := NKind.knit, needle := ⟨true, 3, false⟩, dir := Dir.rightward,
          carriers := [1], needle2 := none, origLine := some 1 } 0 false = true ∧
    (add_instruction
        (mkCarriagePass
          { kind := NKind.knit, needle := ⟨true, 2, false⟩, dir := Dir.rightward,
            carriers := [1], needle2 := none, origLine := some 0 } 0 false)
        { kind := NKind.knit, needle := ⟨true, 3, false⟩, dir := Dir.rightward,
          carriers := [1], needle2 := none, origLine := some 1 } 0 false).2.instructions =
      (mkCarriagePass
          { kind := NKind.knit, needle := ⟨true, 2, false⟩, dir := Dir.rightward,
            carriers := [1], needle2 := none, origLine := some 0 } 0 false).instructions ++
        [{ kind := NKind.knit, needle := ⟨true, 3, false⟩, dir := Dir.rightward,
           carriers := [1], needle2 := none, origLine := some 1 }] :=
  ⟨by decide,
    ((c10_add_instruction_spec _ _ 0 false).2.1 (by decide)).1⟩

/-- C6: at racking 0 the needle aligned to `f1` is `b1`, so the second needle
`f1` of `xfer f1 f1` does not match the aligned needle; the claim says the
execution must raise, but the coded condition of `_validate_aligned_needle`
(which compares the aligned needle's boolean bed against the second needle's
integer position) is false, so no error is raised and execution proceeds. -/
theorem c6_validate_aligned_needle_eval :
    validate_aligned_needle_raises 0 ⟨true, 1, false⟩ ⟨true, 1, false⟩ = false ∧
    aligned_needle_mismatch 0 ⟨true, 1, false⟩ ⟨true, 1, false⟩ = true := by
  decide

/-- C7: rack-value parsing of the four spec scenarios: `rack 0.25` gives rack
0 all-needle, `rack -0.75` gives rack −1 all-needle, `rack -4.75` gives rack
−5 all-needle, and `rack 1` gives rack 1 not all-needle. -/
theorem c7_rack_parsing :
    rack_op ("0.25") = (0, true) ∧
    rack_op ("-0.75") = (-1, true) ∧
    rack_op ("-4.75") = (-5, true) ∧
    rack_op ("1") = (1, false) := by
  decide

/-- C8: on the program `[xfer f1 b1, knit f2]` the only loop-making line sits
at index 1, but `next_loop_forming_instruction_index 0` returns 0: the code
reports the index one short of the loop-making line's actual position,
contradicting the claim (which requires an index strictly greater than the
query index). -/
theorem c8_next_loop_forming_off_by_one :
    next_loop_forming_instruction_index
      [KLine.needleLine
          { kind := NKind.xfer, needle := ⟨true, 1, false⟩, dir := Dir.rightward,
            carriers := [], needle2 := some ⟨false, 1, false⟩, origLine := some 0 },
       KLine.needleLine
          { kind := NKind.knit, needle := ⟨true, 2, false⟩, dir := Dir.rightward,
            carriers := [1], needle2 := none, origLine := some 1 }] 0 = some 0 ∧
    isLoopMakingLine
      (KLine.needleLine
          { kind := NKind.knit, needle := ⟨true, 2, false⟩, dir := Dir.rightward,
            carriers := [1], needle2 := none, origLine := some 1 }) = true ∧
    isLoopMakingLine
      (KLine.needleLine
          { kind := NKind.xfer, needle := ⟨true, 1, false⟩, dir := Dir.rightward,
            carriers := [], needle2 := some ⟨false, 1, false⟩, origLine := some 0 }) = false := by
  decide

/-- C4: extracting the header lines `Gauge 10` then `Carriers 6` into the
default header (gauge 15, carriers 10): the short-circuiting
`any(self._update_header(l) for l in program.header)` stops after the first
update, so the Carriers entry keeps its default value 10 even though the
line's value 6 differs, while the behaviour the claim describes (processing
every header line) would store 6. -/
theorem c4_extract_header_short_circuits :
    (extract_header (default_header 0 15 1 10 2)
        [KLine.headerLine HKind.gauge 10 (some 0),
         KLine.headerLine HKind.carriers 6 (some 1)]).1 = true ∧
    headerLookup
        (extract_header (default_header 0 15 1 10 2)
          [KLine.headerLine HKind.gauge 10 (some 0),
           KLine.headerLine HKind.carriers 6 (some 1)]).2 HKind.carriers =
      some ⟨HKind.carriers, 10⟩ ∧
    headerLookup
        (extract_header_all (default_header 0 15 1 10 2)
          [KLine.headerLine HKind.gauge 10 (some 0),
           KLine.headerLine HKind.carriers 6 (some 1)]).2 HKind.carriers =
      some ⟨HKind.carriers, 6⟩ := by
  decide

theorem headerish_not_breakpoint (l : KLine) (h : isHeaderish l = true) :
    isBreakpointLine l = false := by
  cases l <;> simp_all [isHeaderish, isBreakpointLine]

theorem headerish_not_pause (l : KLine) (h : isHeaderish l = true) :
    isPauseLine l = false := by
  cases l <;> simp_all [isHeaderish, isPauseLine]

theorem version_line_headerish (p : List KLine) (dv : Int) :
    isHeaderish (programVersionLine p dv) = true := by
  unfold programVersionLine
  cases hf : p.find? (fun l => match l with | .versionLine _ _ => true | _ => false) with
  | none => simp [isHeaderish]
  | some a =>
    have := List.find?_some hf
    simp only [Option.getD_some]
    cases a <;> simp_all [isHeaderish]

/-- C9 counterexample: on the one-line program `[pause]`, organizing with
`drop_comments = drop_no_ops = true` (and the source's default
`remove_pause = remove_breakpoint = true`) empties the instructions view:
the Pause instruction is an instruction and it is removed. -/
theorem c9_pause_counterexample :
    programInstructions [KLine.pauseLine (some 0)] = [KLine.pauseLine (some 0)] ∧
    programInstructions (organize_program [KLine.pauseLine (some 0)] 2 true true true true)
      = [] := by
  decide

/-- C9 (amended): for a program containing no Pause instruction,
`organize_program` with `drop_comments = drop_no_ops = true` (and the default
pause and breakpoint removal) leaves the instructions view unchanged, in
order and identity. -/
theorem c9_organize_preserves_instructions (p : List KLine) (dv : Int)
    (hnp : ∀ l ∈ p, isPauseLine l = false) :
    programInstructions (organize_program p dv true true true true) = programInstructions p := by
  have hver := version_line_headerish p dv
  have memL : ∀ l ∈ programVersionLine p dv :: (programHeaderLines p ++ programInstructions p),
      isHeaderish l = true ∨ (isInstructionLine l = true ∧ l ∈ p) := by
    intro l hl
    rcases List.mem_cons.mp hl with h | h
    · exact Or.inl (h ▸ hver)
    · rcases List.mem_append.mp h with h | h
      · exact Or.inl (List.of_mem_filter h)
      · exact Or.inr ⟨List.of_mem_filter h, List.mem_of_mem_filter h⟩
  have hred : organize_program p dv true true true true =
      ((programVersionLine p dv :: (programHeaderLines p ++ programInstructions p)).filter
          (fun l => !isBreakpointLine l)).filter (fun l => !isPauseLine l) := rfl
  have h1 : (programVersionLine p dv :: (programHeaderLines p ++ programInstructions p)).filter
      (fun l => !isBreakpointLine l)
      = programVersionLine p dv :: (programHeaderLines p ++ programInstructions p) := by
    refine List.filter_eq_self.mpr ?_
    intro a ha
    rcases memL a ha with h | h
    · simp [headerish_not_breakpoint a h]
    · simp [instruction_not_breakpoint a h.1]
  have h2 : (programVersionLine p dv :: (programHeaderLines p ++ programInstructions p)).filter
      (fun l => !isPauseLine l)
      = programVersionLine p dv :: (programHeaderLines p ++ programInstructions p) := by
    refine List.filter_eq_self.mpr ?_
    intro a ha
    rcases memL a ha with h | h
    · simp [headerish_not_pause a h]
    · simp [hnp a h.2]
  rw [hred, h1, h2]
  have h3 : (programHeaderLines p).filter isInstructionLine = [] := by
    refine List.filter_eq_nil_iff.mpr ?_
    intro a ha
    simp [headerish_not_instruction a (List.of_mem_filter ha)]
  have h4 : (programInstructions p).filter isInstructionLine = programInstructions p :=
    List.filter_eq_self.mpr (fun a ha => List.of_mem_filter ha)
  show (programVersionLine p dv :: (programHeaderLines p ++ programInstructions p)).filter
      isInstructionLine = programInstructions p
  rw [List.filter_cons, List.filter_append, h3, h4]
  simp [version_line_not_instruction p dv]

theorem c9_organize_preserves_instructions_witness :
    (∀ l ∈ [KLine.needleLine
        { kind := NKind.knit, needle := ⟨true, 1, false⟩, dir := Dir.rightward,
          carriers := [1], needle2 := none, origLine := some 0 },
      KLine.commentLine ("course one") (some 1)], isPauseLine l = false) ∧
    programInstructions
        (organize_program
          [KLine.needleLine
              { kind := NKind.knit, needle := ⟨true, 1, false⟩, dir := Dir.rightward,
                carriers := [1], needle2 := none, origLine := some 0 },
           KLine.commentLine ("course one") (some 1)] 2 true true true true) =
      programInstructions
        [KLine.needleLine
            { kind := NKind.knit, needle := ⟨true, 1, false⟩, dir := Dir.rightward,
              carriers := [1], needle2 := none, origLine := some 0 },
         KLine.commentLine ("course one") (some 1)] :=
  ⟨by decide, c9_organize_preserves_instructions _ 2 (by decide)⟩

/-- C2 counterexample: running the body `in 1` / `in 1` (both with original
line numbers), the second `in 1` would not change the machine state
(`execute` would return false, the carrier is already active), yet the
executer appends neither it nor a No-Op wrapping it: the
`will_update_machine_state` gate in `_process_next_instruction` drops it
before it can reach `_execute_and_add_instruction`. -/
theorem c2_skipped_executable_counterexample :
    (run_executer simpleModel ⟨0, false, []⟩
        [KLine.carrierLine CKind.inOp 1 (some 0),
         KLine.carrierLine CKind.inOp 1 (some 1)]).executed =
      [EEntry.line (KLine.carrierLine CKind.inOp 1 (some 0))] ∧
    (simpleModel.exec
        (run_executer simpleModel ⟨0, false, []⟩
          [KLine.carrierLine CKind.inOp 1 (some 0),
           KLine.carrierLine CKind.inOp 1 (some 1)]).machine
        (KLine.carrierLine CKind.inOp 1 (some 1))).2 = false ∧
    (lineOrig (KLine.carrierLine CKind.inOp 1 (some 1))).isSome = true := by
  decide

/-- C2 (amended): every executable instruction that the executer routes
through `_execute_and_add_instruction` (needle instructions emitted from
carriage passes, and other executables that pass the
`will_update_machine_state` gate) and that has an original line number is
appended as a No-Op comment wrapping it when its execution returns false, and
as itself when its execution returns true. -/
theorem c2_execute_and_add_spec {M : Type} (model : MachineModel M) (s : ExecState M)
    (l : KLine) (hnc : isCommentOrPause l = false) (hln : (lineOrig l).isSome = true) :
    ((model.exec s.machine l).2 = false →
      (execute_and_add_instruction model s l).executed = s.executed ++ [EEntry.noOpOf l]) ∧
    ((model.exec s.machine l).2 = true →
      (execute_and_add_instruction model s l).executed = s.executed ++ [EEntry.line l]) := by
  constructor <;> intro h <;> simp [execute_and_add_instruction, hnc, h, hln]

theorem c2_execute_and_add_spec_witness :
    (execute_and_add_instruction simpleModel
        { machine := ⟨0, false, []⟩, process := [], carriagePasses := [],
          executed := [], currentCP := none, startingNewCP := false }
        (KLine.carrierLine CKind.inOp 1 (some 0))).executed =
      ([] : List EEntry) ++ [EEntry.line (KLine.carrierLine CKind.inOp 1 (some 0))] :=
  (c2_execute_and_add_spec simpleModel
      { machine := ⟨0, false, []⟩, process := [], carriagePasses := [],
        executed := [], currentCP := none, startingNewCP := false }
      (KLine.carrierLine CKind.inOp 1 (some 0)) (by decide) (by decide)).2 (by decide)

/-- C1: running the body `knit + f1 1` / `pause` / `knit + f2 1`, the executer
produces a single carriage pass containing both knits (the pause does not
interrupt pass assembly), and the executed program lists the pause before
both knits rather than between them — contradicting the claim and the
documented purpose of `Pause_Instruction`'s `interrupts_carriage_pass`
marker. -/
theorem c1_pause_does_not_interrupt_pass :
    (run_executer simpleModel ⟨0, false, [1]⟩
        [KLine.needleLine
            { kind := NKind.knit, needle := ⟨true, 1, false⟩, dir := Dir.rightward,
              carriers := [1], needle2 := none, origLine := some 0 },
         KLine.pauseLine (some 1),
         KLine.needleLine
            { kind := NKind.knit, needle := ⟨true, 2, false⟩, dir := Dir.rightward,
              carriers := [1], needle2 := none, origLine := some 2 }]).carriagePasses =
      [{ rack := 0, allNeedle := false,
         instructions :=
          [{ kind := NKind.knit, needle := ⟨true, 1, false⟩, dir := Dir.rightward,
             carriers := [1], needle2 := none, origLine := some 0 },
           { kind := NKind.knit, needle := ⟨true, 2, false⟩, dir := Dir.rightward,
             carriers := [1], needle2 := none, origLine := some 2 }],
         needleMap :=
          [(⟨true, 1, false⟩,
            { kind := NKind.knit, needle := ⟨true, 1, false⟩, dir := Dir.rightward,
              carriers := [1], needle2 := none, origLine := some 0 }),
           (⟨true, 2, false⟩,
            { kind := NKind.knit, needle := ⟨true, 2, false⟩, dir := Dir.rightward,
              carriers := [1], needle2 := none, origLine := some 2 })] }] ∧
    (run_executer simpleModel ⟨0, false, [1]⟩
        [KLine.needleLine
            { kind := NKind.knit, needle := ⟨true, 1, false⟩, dir := Dir.rightward,
              carriers := [1], needle2 := none, origLine := some 0 },
         KLine.pauseLine (some 1),
         KLine.needleLine
            { kind := NKind.knit, needle := ⟨true, 2, false⟩, dir := Dir.rightward,
              carriers := [1], needle2 := none, origLine := some 2 }]).executed =
      [EEntry.line (KLine.pauseLine (some 1)),
       EEntry.line (KLine.needleLine
          { kind := NKind.knit, needle := ⟨true, 1, false⟩, dir := Dir.rightward,
            carriers := [1], needle2 := none, origLine := some 0 }),
       EEntry.line (KLine.needleLine
          { kind := NKind.knit, needle := ⟨true, 2, false⟩, dir := Dir.rightward,
            carriers := [1], needle2 := none, origLine := some 2 })] := by
  decide

/-- C3 counterexample: a rightward knit pass on `f2`, `f3` built by
`add_instruction`, then `add_kicks` with a kick at slot 1 whose direction is
Leftward (no check in `add_kicks` rejects it).  The re-sort places the kick
first, so the pass's first instruction — the only operational notion of pass
direction in the source — is now Leftward, while the instruction slots ascend
1, 2, 3: the pass is directed yet violates the claimed consecutive-slot
ordering. -/
theorem c3_kick_direction_counterexample :
    add_kicks
        (add_instruction
          (mkCarriagePass
            { kind := NKind.knit, needle := ⟨true, 2, false⟩, dir := Dir.rightward,
              carriers := [1], needle2 := none, origLine := some 0 } 0 false)
          { kind := NKind.knit, needle := ⟨true, 3, false⟩, dir := Dir.rightward,
            carriers := [1], needle2 := none, origLine := some 1 } 0 false).2
        [{ kind := NKind.kick, needle := ⟨true, 1, false⟩, dir := Dir.leftward,
           carriers := [1], needle2 := none, origLine := none }] =
      some
        { rack := 0, allNeedle := false,
          instructions :=
            [{ kind := NKind.kick, needle := ⟨true, 1, false⟩, dir := Dir.leftward,
               carriers := [1], needle2 := none, origLine := none },
             { kind := NKind.knit, needle := ⟨true, 2, false⟩, dir := Dir.rightward,
               carriers := [1], needle2 := none, origLine := some 0 },
             { kind := NKind.knit, needle := ⟨true, 3, false⟩, dir := Dir.rightward,
               carriers := [1], needle2 := none, origLine := some 1 }],
          needleMap :=
            [(⟨true, 1, false⟩,
              { kind := NKind.kick, needle := ⟨true, 1, false⟩, dir := Dir.leftward,
                carriers := [1], needle2 := none, origLine := none }),
             (⟨true, 2, false⟩,
              { kind := NKind.knit, needle := ⟨true, 2, false⟩, dir := Dir.rightward,
                carriers := [1], needle2 := none, origLine := some 0 }),
             (⟨true, 3, false⟩,
              { kind := NKind.knit, needle := ⟨true, 3, false⟩, dir := Dir.rightward,
                carriers := [1], needle2 := none, origLine := some 1 })] } ∧
    directedPass
        { rack := 0, allNeedle := false,
          instructions :=
            [{ kind := NKind.kick, needle := ⟨true, 1, false⟩, dir := Dir.leftward,
               carriers := [1], needle2 := none, origLine := none },
             { kind := NKind.knit, needle := ⟨true, 2, false⟩, dir := Dir.rightward,
               carriers := [1], needle2 := none, origLine := some 0 },
             { kind := NKind.knit, needle := ⟨true, 3, false⟩, dir := Dir.rightward,
               carriers := [1], needle2 := none, origLine := some 1 }],
          needleMap :=
            [(⟨true, 1, false⟩,
              { kind := NKind.kick, needle := ⟨true, 1, false⟩, dir := Dir.leftward,
                carriers := [1], needle2 := none, origLine := none }),
             (⟨true, 2, false⟩,
              { kind := NKind.knit, needle := ⟨true, 2, false⟩, dir := Dir.rightward,
                carriers := [1], needle2 := none, origLine := some 0 }),
             (⟨true, 3, false⟩,
              { kind := NKind.knit, needle := ⟨true, 3, false⟩, dir := Dir.rightward,
                carriers := [1], needle2 := none, origLine := some 1 })] } ∧
    ¬ goodPass
        { rack := 0, allNeedle := false,
          instructions :=
            [{ kind := NKind.kick, needle := ⟨true, 1, false⟩, dir := Dir.leftward,
               carriers := [1], needle2 := none, origLine := none },
             { kind := NKind.knit, needle := ⟨true, 2, false⟩, dir := Dir.rightward,
               carriers := [1], needle2 := none, origLine := some 0 },
             { kind := NKind.knit, needle := ⟨true, 3, false⟩, dir := Dir.rightward,
               carriers := [1], needle2 := none, origLine := some 1 }],
          needleMap :=
            [(⟨true, 1, false⟩,
              { kind := NKind.kick, needle := ⟨true, 1, false⟩, dir := Dir.leftward,
                carriers := [1], needle2 := none, origLine := none }),
             (⟨true, 2, false⟩,
              { kind := NKind.knit, needle := ⟨true, 2, false⟩, dir := Dir.rightward,
                carriers := [1], needle2 := none, origLine := some 0 }),
             (⟨true, 3, false⟩,
              { kind := NKind.knit, needle := ⟨true, 3, false⟩, dir := Dir.rightward,
                carriers := [1], needle2 := none, origLine := some 1 })] } := by
  decide

/-! ### Chain and sorting lemmas for the carriage-pass invariant -/

theorem chainB_iff (R : NInstr → NInstr → Bool) (l : List NInstr) :
    chainB R l = true ↔ List.Chain' (fun a b => R a b = true) l := by
  induction l with
  | nil => simp [chainB]
  | cons a t ih =>
    cases t with
    | nil => simp [chainB]
    | cons b t' =>
      rw [chainB, Bool.and_eq_true, List.chain'_cons, ih]

theorem goodStepB_iff (d : Dir) (rack : Int) (an : Bool) (a b : NInstr) :
    goodStepB d rack an a b = true ↔ goodStep d rack an a b := by
  unfold goodStepB goodStep
  cases d <;> cases an <;>
    simp [Bool.or_eq_true, Bool.and_eq_true, bne_iff_ne, beq_iff_eq, decide_eq_true_eq, ne_comm]

theorem goodPass_iff (cp : CarriagePass) :
    goodPass cp ↔
      List.Chain' (goodStep (passDir cp) cp.rack cp.allNeedle) cp.instructions := by
  unfold goodPass
  rw [chainB_iff]
  constructor <;> intro h
  · exact h.imp (fun a b hab => (goodStepB_iff _ _ _ a b).mp hab)
  · exact h.imp (fun a b hab => (goodStepB_iff _ _ _ a b).mpr hab)

theorem dirSlotLe_refl (d : Dir) (x : Int) : dirSlotLe d x x := by
  cases d <;> simp [dirSlotLe]

theorem goodStep_le (d : Dir) (rack : Int) (an : Bool) (a b : NInstr)
    (h : goodStep d rack an a b) :
    dirSlotLe d (slot_by_racking a.needle rack) (slot_by_racking b.needle rack) := by
  rcases h with ⟨_, _, heq⟩ | ⟨hd, hlt⟩ | ⟨hd, hlt⟩
  · rw [heq]; exact dirSlotLe_refl d _
  · subst hd; exact le_of_lt hlt
  · subst hd; exact le_of_lt hlt

theorem chain_good_lower_bound (d : Dir) (rack : Int) (an : Bool) (b : NInstr)
    (t : List NInstr) (h : List.Chain' (goodStep d rack an) (b :: t)) :
    ∀ x ∈ t, dirSlotLe d (slot_by_racking b.needle rack) (slot_by_racking x.needle rack) := by
  induction t generalizing b with
  | nil => simp
  | cons c t' ih =>
    intro x hx
    have hbc := goodStep_le d rack an b c (List.chain'_cons.mp h).1
    rcases List.mem_cons.mp hx with rfl | hx'
    · exact hbc
    · have hcx := ih c (List.chain'_cons.mp h).2 x hx'
      cases d <;> simp only [dirSlotLe] at * <;> omega

theorem chain_good_filter_ties (d : Dir) (rack : Int) (an : Bool) (l : List NInstr)
    (h : List.Chain' (goodStep d rack an) l) (s : Int) :
    List.Chain' (fun a b => an = true ∧ a.needle.isFront ≠ b.needle.isFront)
      (l.filter (fun i => slot_by_racking i.needle rack == s)) := by
  induction l with
  | nil => simp
  | cons a t ih =>
    have htail := ih h.tail
    by_cases ha : (slot_by_racking a.needle rack == s) = true
    · rw [List.filter_cons, if_pos ha]
      rw [List.chain'_cons']
      refine ⟨?_, htail⟩
      intro y hy
      cases t with
      | nil => simp at hy
      | cons b t' =>
        have hab : goodStep d rack an a b := (List.chain'_cons.mp h).1
        by_cases hb : (slot_by_racking b.needle rack == s) = true
        · rw [List.filter_cons, if_pos hb] at hy
          simp only [List.head?_cons, Option.mem_def, Option.some.injEq] at hy
          subst hy
          rcases hab with ⟨han, hbed, _⟩ | ⟨_, hlt⟩ | ⟨_, hlt⟩
          · exact ⟨han, hbed⟩
          · rw [beq_iff_eq] at ha hb; omega
          · rw [beq_iff_eq] at ha hb; omega
        · rw [List.filter_cons, if_neg hb] at hy
          have hempty : t'.filter (fun i => slot_by_racking i.needle rack == s) = [] := by
            refine List.filter_eq_nil_iff.mpr ?_
            intro x hx
            have hbx := chain_good_lower_bound d rack an b t' (List.chain'_cons.mp h).2 x hx
            have hab' := goodStep_le d rack an a b hab
            rw [beq_iff_eq] at ha
            simp only [beq_iff_eq]
            rcases hab with ⟨_, _, heq⟩ | ⟨hd, hlt⟩ | ⟨hd, hlt⟩
            · rw [beq_iff_eq] at hb; omega
            · subst hd; simp only [dirSlotLe] at hbx; omega
            · subst hd; simp only [dirSlotLe] at hbx; omega
          rw [hempty] at hy
          simp at hy
    · rw [List.filter_cons, if_neg ha]
      exact htail

theorem dirSlotLe_of_eq (d : Dir) (x y : Int) (h : x = y) : dirSlotLe d x y := by
  subst h; exact dirSlotLe_refl d x

theorem filter_orderedInsert_slot (d : Dir) (rack : Int) (s : Int) (x : NInstr)
    (l : List NInstr) :
    (l.orderedInsert
        (fun a b => dirSlotLe d (slot_by_racking a.needle rack) (slot_by_racking b.needle rack))
        x).filter (fun i => slot_by_racking i.needle rack == s)
      = (x :: l).filter (fun i => slot_by_racking i.needle rack == s) := by
  induction l with
  | nil => rfl
  | cons b bs ih =>
    by_cases hle : dirSlotLe d (slot_by_racking x.needle rack) (slot_by_racking b.needle rack)
    · rw [List.orderedInsert, if_pos hle]
    · rw [List.orderedInsert, if_neg hle]
      have hxb : slot_by_racking x.needle rack ≠ slot_by_racking b.needle rack :=
        fun heq => hle (dirSlotLe_of_eq d _ _ heq)
      simp only [List.filter_cons, ih]
      by_cases hx : (slot_by_racking x.needle rack == s) = true
      · have hb : (slot_by_racking b.needle rack == s) = false := by
          rw [beq_iff_eq] at hx
          exact beq_eq_false_iff_ne.mpr (fun heq => hxb (by omega))
        simp [hx, hb]
      · simp [hx]

theorem filter_sortInstructionsByDir (d : Dir) (rack : Int) (s : Int) (l : List NInstr) :
    (sortInstructionsByDir d rack l).filter (fun i => slot_by_racking i.needle rack == s)
      = l.filter (fun i => slot_by_racking i.needle rack == s) := by
  induction l with
  | nil => rfl
  | cons a t ih =>
    unfold sortInstructionsByDir at *
    rw [List.insertionSort, filter_orderedInsert_slot, List.filter_cons, List.filter_cons, ih]

theorem chain_le_sortInstructionsByDir (d : Dir) (rack : Int) (l : List NInstr) :
    List.Chain'
      (fun a b => dirSlotLe d (slot_by_racking a.needle rack) (slot_by_racking b.needle rack))
      (sortInstructionsByDir d rack l) := by
  haveI : IsTotal NInstr
      (fun a b => dirSlotLe d (slot_by_racking a.needle rack) (slot_by_racking b.needle rack)) := by
    refine ⟨fun a b => ?_⟩
    cases d <;> simp only [dirSlotLe] <;> omega
  haveI : IsTrans NInstr
      (fun a b => dirSlotLe d (slot_by_racking a.needle rack) (slot_by_racking b.needle rack)) := by
    refine ⟨fun a b c hab hbc => ?_⟩
    cases d <;> simp only [dirSlotLe] at * <;> omega
  exact (List.sorted_insertionSort _ l).chain'

theorem mem_sortInstructionsByDir (d : Dir) (rack : Int) (l : List NInstr) (x : NInstr) :
    x ∈ sortInstructionsByDir d rack l ↔ x ∈ l :=
  (List.perm_insertionSort _ l).mem_iff

theorem perm_sortInstructionsByDir (d : Dir) (rack : Int) (l : List NInstr) :
    List.Perm (sortInstructionsByDir d rack l) l :=
  List.perm_insertionSort _ l

theorem chain_upgrade (d : Dir) (rack : Int) (an : Bool) :
    ∀ O : List NInstr,
      List.Chain'
        (fun a b => dirSlotLe d (slot_by_racking a.needle rack) (slot_by_racking b.needle rack)) O →
      (∀ s, List.Chain' (fun a b => an = true ∧ a.needle.isFront ≠ b.needle.isFront)
          (O.filter (fun i => slot_by_racking i.needle rack == s))) →
      List.Chain' (goodStep d rack an) O := by
  intro O
  induction O with
  | nil => intro _ _; simp
  | cons a t ih =>
    intro hle hties
    cases t with
    | nil => simp
    | cons b t' =>
      rw [List.chain'_cons] at hle ⊢
      have htailties : ∀ s, List.Chain'
          (fun a b => an = true ∧ a.needle.isFront ≠ b.needle.isFront)
          ((b :: t').filter (fun i => slot_by_racking i.needle rack == s)) := by
        intro s
        have h := hties s
        rw [List.filter_cons] at h
        by_cases ha : (slot_by_racking a.needle rack == s) = true
        · rw [if_pos ha] at h; exact h.tail
        · rwa [if_neg ha] at h
      refine ⟨?_, ih hle.2 htailties⟩
      by_cases heq : slot_by_racking a.needle rack = slot_by_racking b.needle rack
      · have h := hties (slot_by_racking a.needle rack)
        rw [List.filter_cons, if_pos (by simp), List.filter_cons, if_pos (by simp [heq])] at h
        have hopp := (List.chain'_cons.mp h).1
        exact Or.inl ⟨hopp.1, hopp.2, heq⟩
      · cases hd : d
        · exact Or.inr (Or.inr ⟨rfl, by
            have := hle.1; rw [hd] at this; simp only [dirSlotLe] at this; omega⟩)
        · exact Or.inr (Or.inl ⟨rfl, by
            have := hle.1; rw [hd] at this; simp only [dirSlotLe] at this; omega⟩)

/-! ### Dictionary-fold lemmas -/

theorem dictInsert_fresh (acc : List NInstr) (i : NInstr)
    (h : acc.any (fun j => j.needle == i.needle) = false) :
    dictInsert acc i = acc ++ [i] := by
  unfold dictInsert
  rw [if_neg (by simp [h])]

theorem mem_dictInsert (acc : List NInstr) (i x : NInstr) (hx : x ∈ dictInsert acc i) :
    x ∈ acc ∨ x = i := by
  unfold dictInsert at hx
  by_cases h : acc.any (fun j => j.needle == i.needle) = true
  · rw [if_pos h] at hx
    rcases List.mem_map.mp hx with ⟨j, hj, hjx⟩
    by_cases hji : (j.needle == i.needle) = true
    · rw [if_pos hji] at hjx; exact Or.inr hjx.symm
    · rw [if_neg hji] at hjx; exact Or.inl (hjx ▸ hj)
  · rw [if_neg h] at hx
    rcases List.mem_append.mp hx with h' | h'
    · exact Or.inl h'
    · exact Or.inr (List.mem_singleton.mp h')

theorem keys_dictInsert_present (acc : List NInstr) (i : NInstr)
    (h : acc.any (fun j => j.needle == i.needle) = true) :
    (dictInsert acc i).map (·.needle) = acc.map (·.needle) := by
  unfold dictInsert
  rw [if_pos h, List.map_map]
  have hmap : ∀ l : List NInstr,
      l.map ((·.needle) ∘ fun j => if (j.needle == i.needle) = true then i else j)
        = l.map (·.needle) := by
    intro l
    induction l with
    | nil => rfl
    | cons j t iht =>
      rw [List.map_cons, List.map_cons, iht]
      by_cases hji : j.needle = i.needle
      · simp [Function.comp, hji]
      · simp [Function.comp, hji]
  exact hmap acc

theorem keys_dictInsert_absent (acc : List NInstr) (i : NInstr)
    (h : acc.any (fun j => j.needle == i.needle) = false) :
    (dictInsert acc i).map (·.needle) = acc.map (·.needle) ++ [i.needle] := by
  rw [dictInsert_fresh acc i h, List.map_append]
  rfl

theorem keys_nodup_dictInsert (acc : List NInstr) (i : NInstr)
    (h : (acc.map (·.needle)).Nodup) :
    ((dictInsert acc i).map (·.needle)).Nodup := by
  by_cases hp : acc.any (fun j => j.needle == i.needle) = true
  · rwa [keys_dictInsert_present acc i hp]
  · rw [keys_dictInsert_absent acc i (by simpa using hp)]
    rw [List.nodup_append]
    refine ⟨h, List.nodup_singleton _, ?_⟩
    intro n hn hn'
    rw [List.mem_singleton] at hn'
    subst hn'
    rcases List.mem_map.mp hn with ⟨j, hj, hjn⟩
    have : acc.any (fun j => j.needle == i.needle) = true :=
      List.any_eq_true.mpr ⟨j, hj, by simp [hjn]⟩
    simp_all

theorem mem_foldl_dictInsert (K : List NInstr) :
    ∀ (acc : List NInstr) (x : NInstr), x ∈ K.foldl dictInsert acc → x ∈ acc ∨ x ∈ K := by
  induction K with
  | nil => intro acc x hx; exact Or.inl hx
  | cons k K' ih =>
    intro acc x hx
    rcases ih (dictInsert acc k) x hx with h | h
    · rcases mem_dictInsert acc k x h with h' | h'
      · exact Or.inl h'
      · exact Or.inr (h' ▸ List.mem_cons_self k K')
    · exact Or.inr (List.mem_cons_of_mem k h)

theorem keys_nodup_foldl_dictInsert (K : List NInstr) :
    ∀ acc : List NInstr, (acc.map (·.needle)).Nodup →
      ((K.foldl dictInsert acc).map (·.needle)).Nodup := by
  induction K with
  | nil => intro acc h; exact h
  | cons k K' ih =>
    intro acc h
    exact ih (dictInsert acc k) (keys_nodup_dictInsert acc k h)

theorem foldl_dictInsert_frozen (K : List NInstr) :
    ∀ acc1 acc2 : List NInstr, (∀ k ∈ K, k.needle ∉ acc1.map (·.needle)) →
      K.foldl dictInsert (acc1 ++ acc2) = acc1 ++ K.foldl dictInsert acc2 := by
  induction K with
  | nil => intro acc1 acc2 _; rfl
  | cons k K' ih =>
    intro acc1 acc2 hfresh
    have hk1 : acc1.any (fun j => j.needle == k.needle) = false := by
      rw [Bool.eq_false_iff]
      intro hc
      rcases List.any_eq_true.mp hc with ⟨j, hj, hjk⟩
      exact hfresh k (List.mem_cons_self k K')
        (List.mem_map.mpr ⟨j, hj, beq_iff_eq.mp hjk⟩)
    have hk1m : ∀ j ∈ acc1, (j.needle == k.needle) = false := by
      intro j hj
      rw [Bool.eq_false_iff]
      intro hc
      rw [Bool.eq_false_iff] at hk1
      exact hk1 (List.any_eq_true.mpr ⟨j, hj, hc⟩)
    have step : dictInsert (acc1 ++ acc2) k = acc1 ++ dictInsert acc2 k := by
      unfold dictInsert
      rw [List.any_append, hk1, Bool.false_or]
      by_cases h2 : acc2.any (fun j => j.needle == k.needle) = true
      · rw [if_pos h2, if_pos h2, List.map_append]
        congr 1
        have hmap : ∀ l : List NInstr, (∀ j ∈ l, (j.needle == k.needle) = false) →
            l.map (fun j => if (j.needle == k.needle) = true then k else j) = l := by
          intro l hl
          induction l with
          | nil => rfl
          | cons j t iht =>
            rw [List.map_cons, if_neg (by simp [hl j (List.mem_cons_self j t)]),
              iht (fun x hx => hl x (List.mem_cons_of_mem j hx))]
        exact hmap acc1 hk1m
      · rw [if_neg h2, if_neg h2, List.append_assoc]
    rw [List.foldl_cons, step, List.foldl_cons,
      ih acc1 (dictInsert acc2 k) (fun x hx => hfresh x (List.mem_cons_of_mem k hx))]

theorem foldl_dictInsert_nodup_self (L : List NInstr) :
    ∀ acc : List NInstr, ((acc ++ L).map (·.needle)).Nodup →
      L.foldl dictInsert acc = acc ++ L := by
  induction L with
  | nil => intro acc _; simp
  | cons a L' ih =>
    intro acc h
    have hfresh : acc.any (fun j => j.needle == a.needle) = false := by
      rw [Bool.eq_false_iff]
      intro hc
      rcases List.any_eq_true.mp hc with ⟨j, hj, hja⟩
      rw [List.map_append, List.nodup_append] at h
      exact h.2.2 (List.mem_map.mpr ⟨j, hj, beq_iff_eq.mp hja⟩) (by simp)
    rw [List.foldl_cons, dictInsert_fresh acc a hfresh,
      ih (acc ++ [a]) (by rwa [List.append_assoc, List.singleton_append]),
      List.append_assoc, List.singleton_append]

theorem dedupKeyed_append_fresh (L K : List NInstr)
    (hL : (L.map (·.needle)).Nodup)
    (hK : ∀ k ∈ K, k.needle ∉ L.map (·.needle)) :
    dedupKeyed (L ++ K) = L ++ dedupKeyed K := by
  unfold dedupKeyed
  rw [List.foldl_append, foldl_dictInsert_nodup_self L [] (by simpa using hL)]
  simpa using foldl_dictInsert_frozen K L [] hK

/-! ### Facts extracted from `can_add_instruction` -/

theorem compat_yarn (a b : NKind) :
    isYarnKind a = true → compatible_in_carriage_pass a b = true → isYarnKind b = true := by
  cases a <;> cases b <;> decide

theorem knitpass_yarn (k : NKind) : isKnitPassKind k = true → isYarnKind k = true := by
  cases k <;> decide

theorem can_add_true_elim (cp : CarriagePass) (i : NInstr) (rack : Int) (an : Bool)
    (f li : NInstr)
    (hf : first_instruction cp = some f) (hli : cp.instructions.getLast? = some li)
    (h : can_add_instruction cp i rack an = true) :
    needleInMap i.needle cp.needleMap = false ∧
    compatible_in_carriage_pass f.kind i.kind = true ∧
    (isYarnKind f.kind = true →
      i.dir = f.dir ∧ i.carriers = f.carriers ∧ goodStep f.dir cp.rack cp.allNeedle li i) := by
  have hln : last_needle cp = some li.needle := by
    unfold last_needle
    rw [hli]
    rfl
  unfold can_add_instruction at h
  rw [hf, hln] at h
  dsimp only at h
  by_cases h1 : (rack != cp.rack || an != cp.allNeedle || needleInMap i.needle cp.needleMap
      || !compatible_in_carriage_pass f.kind i.kind) = true
  · rw [if_pos h1] at h; cases h
  · rw [if_neg h1] at h
    have h1' := h1
    simp only [Bool.or_eq_true, not_or, Bool.not_eq_true, Bool.not_eq_true'] at h1'
    obtain ⟨⟨⟨_, _⟩, hmap⟩, hcompat0⟩ := h1'
    have hcompat : compatible_in_carriage_pass f.kind i.kind = true := by
      cases hcb : compatible_in_carriage_pass f.kind i.kind
      · exact absurd hcb hcompat0
      · rfl
    refine ⟨hmap, hcompat, ?_⟩
    intro hy
    have hyi := compat_yarn f.kind i.kind hy hcompat
    rw [if_pos (by rw [hy, hyi]; rfl)] at h
    by_cases h2 : (f.dir != i.dir || f.carriers != i.carriers) = true
    · rw [if_pos h2] at h; cases h
    · rw [if_neg h2] at h
      have h2' := h2
      simp only [Bool.or_eq_true, not_or, Bool.not_eq_true, bne_eq_false_iff_eq] at h2'
      obtain ⟨hdir, hcar⟩ := h2'
      refine ⟨hdir.symm, hcar.symm, ?_⟩
      by_cases h3 : (cp.allNeedle && (i.needle.isFront != li.needle.isFront)
          && (slot_by_racking i.needle cp.rack == slot_by_racking li.needle cp.rack)) = true
      · simp only [Bool.and_eq_true, bne_iff_ne, ne_eq, beq_iff_eq] at h3
        exact Or.inl ⟨h3.1.1, fun hb => h3.1.2 hb.symm, h3.2.symm⟩
      · rw [if_neg h3] at h
        cases hd : f.dir with
        | leftward =>
          rw [hd] at h
          rw [if_pos (by rfl)] at h
          exact Or.inr (Or.inr ⟨rfl, by simpa using h⟩)
        | rightward =>
          rw [hd] at h
          rw [if_neg (by decide)] at h
          exact Or.inr (Or.inl ⟨rfl, by simpa using h⟩)

theorem can_add_not_in_map (cp : CarriagePass) (i : NInstr) (rack : Int) (an : Bool)
    (h : can_add_instruction cp i rack an = true) :
    needleInMap i.needle cp.needleMap = false := by
  unfold can_add_instruction at h
  cases hf : first_instruction cp with
  | none => rw [hf] at h; cases hl : last_needle cp <;> rw [hl] at h <;> cases h
  | some f =>
    cases hl : last_needle cp with
    | none => rw [hf, hl] at h; cases h
    | some ln =>
      rw [hf, hl] at h
      dsimp only at h
      by_cases h1 : (rack != cp.rack || an != cp.allNeedle || needleInMap i.needle cp.needleMap
          || !compatible_in_carriage_pass f.kind i.kind) = true
      · rw [if_pos h1] at h; cases h
      · simp only [Bool.or_eq_true, not_or, Bool.not_eq_true] at h1
        exact h1.1.2

/-! ### Preservation of the pass invariant -/

theorem passInv_mk (i : NInstr) (rack : Int) (an : Bool) :
    passInv (mkCarriagePass i rack an) := by
  refine ⟨by simp [mkCarriagePass], by simp [mkCarriagePass], by simp [mkCarriagePass], ?_⟩
  intro f hf _
  simp only [mkCarriagePass, first_instruction, List.head?_cons, Option.some.injEq] at hf
  subst hf
  exact ⟨by simp [mkCarriagePass], by simp [mkCarriagePass]⟩

theorem passInv_add (cp : CarriagePass) (i : NInstr) (rack : Int) (an : Bool)
    (h : passInv cp) : passInv (add_instruction cp i rack an).2 := by
  by_cases hc : can_add_instruction cp i rack an = true
  · obtain ⟨hne, hnd, hwf, hdir⟩ := h
    cases hins : cp.instructions with
    | nil => exact absurd hins hne
    | cons a t =>
    have hf : first_instruction cp = some a := by
      unfold first_instruction; rw [hins]; rfl
    obtain ⟨li, hli⟩ : ∃ li, cp.instructions.getLast? = some li := by
      rw [hins]
      exact ⟨(a :: t).getLast (by simp), (List.getLast?_eq_getLast (a :: t) (by simp))⟩
    obtain ⟨hmap, hcompat, hyparts⟩ := can_add_true_elim cp i rack an a li hf hli hc
    have hp2 : (add_instruction cp i rack an).2 =
        { cp with
          instructions := cp.instructions ++ [i]
          needleMap := cp.needleMap ++ [(i.needle, i)] } := by
      unfold add_instruction
      rw [if_pos hc]
    have hnotin : i.needle ∉ cp.instructions.map (·.needle) := by
      rw [← hwf]
      intro hmem
      rcases List.mem_map.mp hmem with ⟨pr, hpm, hn⟩
      have : needleInMap i.needle cp.needleMap = true :=
        List.any_eq_true.mpr ⟨pr, hpm, by simp [hn]⟩
      simp_all
    rw [hp2]
    refine ⟨by simp, ?_, ?_, ?_⟩
    · simp only [List.map_append, List.map_cons, List.map_nil]
      rw [List.nodup_append]
      refine ⟨hnd, List.nodup_singleton _, ?_⟩
      intro n hn hn'
      simp only [List.map_cons, List.map_nil, List.mem_singleton] at hn'
      subst hn'
      exact hnotin hn
    · simp [hwf]
    · intro f' hf' hy'
      have hfa : f' = a := by
        unfold first_instruction at hf'
        simp only [hins, List.cons_append, List.head?_cons, Option.some.injEq] at hf'
        exact hf'.symm
      rw [hfa] at hy' ⊢
      obtain ⟨hidir, _, hstep⟩ := hyparts hy'
      obtain ⟨hdirAll, hchain⟩ := hdir a hf hy'
      constructor
      · intro x hx
        rcases List.mem_append.mp hx with hx' | hx'
        · exact hdirAll x hx'
        · rw [List.mem_singleton.mp hx']
          exact hidir
      · rw [List.chain'_append]
        refine ⟨hchain, List.chain'_singleton i, ?_⟩
        intro x hx y hy
        rw [hli] at hx
        simp only [Option.mem_def, Option.some.injEq] at hx
        simp only [List.head?_cons, Option.mem_def, Option.some.injEq] at hy
        subst hx
        subst hy
        exact hstep
  · have : (add_instruction cp i rack an).2 = cp := by
      unfold add_instruction
      rw [if_neg hc]
    rwa [this]

theorem passInv_merge_add_loop (is : List NInstr) :
    ∀ (cp : CarriagePass) (rack : Int) (an : Bool) (p : CarriagePass), passInv cp →
      merge_add_loop cp is rack an = some p → passInv p := by
  induction is with
  | nil =>
    intro cp rack an p h hm
    unfold merge_add_loop at hm
    injection hm with hm
    exact hm ▸ h
  | cons i rest ih =>
    intro cp rack an p h hm
    unfold merge_add_loop at hm
    dsimp only at hm
    by_cases hr : (add_instruction cp i rack an).1 = true
    · rw [if_pos hr] at hm
      exact ih _ _ _ _ (passInv_add cp i rack an h) hm
    · rw [if_neg hr] at hm
      cases hm

theorem passInv_merge (cp next p : CarriagePass) (b : Bool) (h : passInv cp)
    (hm : merge_carriage_pass cp next = some (b, p)) : passInv p := by
  unfold merge_carriage_pass at hm
  by_cases hcm : can_merge_pass cp next = true
  · rw [if_neg (by simp [hcm])] at hm
    cases hml : merge_add_loop cp next.instructions next.rack next.allNeedle with
    | none => rw [hml] at hm; cases hm
    | some q =>
      rw [hml] at hm
      simp at hm
      rcases hm with ⟨hb, hqp⟩
      subst hqp
      exact passInv_merge_add_loop next.instructions cp next.rack next.allNeedle _ h hml
  · have hcm' : can_merge_pass cp next = false := Bool.eq_false_iff.mpr hcm
    rw [if_pos (by rw [hcm']; rfl)] at hm
    simp only [Option.some.injEq, Prod.mk.injEq] at hm
    rw [← hm.2]
    exact h

theorem passInv_add_kicks (cp p : CarriagePass) (ks : List NInstr) (f : NInstr)
    (h : passInv cp) (hf : first_instruction cp = some f)
    (hks : ∀ k ∈ ks, isKickShaped k ∧ k.dir = f.dir)
    (hres : add_kicks cp ks = some p) : passInv p := by
  obtain ⟨hne, hnd, hwf, hdircl⟩ := h
  unfold add_kicks at hres
  rw [hf] at hres
  dsimp only at hres
  by_cases hknit : (!isKnitPassKind f.kind) = true
  · rw [if_pos hknit] at hres; cases hres
  rw [if_neg hknit] at hres
  have hkp : isKnitPassKind f.kind = true := by
    cases hkb : isKnitPassKind f.kind
    · rw [hkb] at hknit; exact absurd rfl hknit
    · rfl
  have hyarn : isYarnKind f.kind = true := knitpass_yarn f.kind hkp
  by_cases hslot : (ks.any fun k => instruction_on_slot cp k.needle.position) = true
  · rw [if_pos hslot] at hres; cases hres
  rw [if_neg hslot] at hres
  by_cases hcar : (ks.any fun k => k.carriers != f.carriers) = true
  · rw [if_pos hcar] at hres; cases hres
  rw [if_neg hcar] at hres
  have hslotf : ∀ k ∈ ks, instruction_on_slot cp k.needle.position = false := by
    intro k hk
    cases hb : instruction_on_slot cp k.needle.position
    · rfl
    · exact absurd (List.any_eq_true.mpr ⟨k, hk, hb⟩) hslot
  have hfreshN : ∀ k ∈ ks, k.needle ∉ cp.instructions.map (·.needle) := by
    intro k hk hmem
    rcases List.mem_map.mp hmem with ⟨j, hj, hjn⟩
    obtain ⟨⟨_, hkf, _⟩, _⟩ := hks k hk
    have hons : instruction_on_slot cp k.needle.position = true := by
      unfold instruction_on_slot
      refine List.any_eq_true.mpr ⟨j, hj, ?_⟩
      rw [hjn]
      unfold slot_by_racking
      rw [hkf]
      simp
    rw [hslotf k hk] at hons
    cases hons
  have hsplit : dedupKeyed (cp.instructions ++ ks) = cp.instructions ++ dedupKeyed ks :=
    dedupKeyed_append_fresh cp.instructions ks hnd hfreshN
  rw [hsplit] at hres
  have hK'mem : ∀ x ∈ dedupKeyed ks, x ∈ ks := by
    intro x hx
    rcases mem_foldl_dictInsert ks [] x hx with h' | h'
    · cases h'
    · exact h'
  have hK'nodup : ((dedupKeyed ks).map (·.needle)).Nodup :=
    keys_nodup_foldl_dictInsert ks [] (by simp)
  have hchainL : List.Chain' (goodStep f.dir cp.rack cp.allNeedle) cp.instructions :=
    (hdircl f hf hyarn).2
  have hp : p =
      { cp with
        instructions :=
          sortInstructionsByDir f.dir cp.rack (cp.instructions ++ dedupKeyed ks)
        needleMap :=
          (sortInstructionsByDir f.dir cp.rack (cp.instructions ++ dedupKeyed ks)).map
            (fun i => (i.needle, i)) } := by
    injection hres with hres'
    exact hres'.symm
  have hOmem : ∀ x ∈ sortInstructionsByDir f.dir cp.rack (cp.instructions ++ dedupKeyed ks),
      x ∈ cp.instructions ∨ x ∈ ks := by
    intro x hx
    rcases List.mem_append.mp ((mem_sortInstructionsByDir _ _ _ x).mp hx) with h' | h'
    · exact Or.inl h'
    · exact Or.inr (hK'mem x h')
  have hOdir : ∀ x ∈ sortInstructionsByDir f.dir cp.rack (cp.instructions ++ dedupKeyed ks),
      x.dir = f.dir := by
    intro x hx
    rcases hOmem x hx with h' | h'
    · exact (hdircl f hf hyarn).1 x h'
    · exact (hks x h').2
  have hties : ∀ s, List.Chain'
      (fun a b => cp.allNeedle = true ∧ a.needle.isFront ≠ b.needle.isFront)
      ((sortInstructionsByDir f.dir cp.rack (cp.instructions ++ dedupKeyed ks)).filter
        (fun i => slot_by_racking i.needle cp.rack == s)) := by
    intro s
    rw [filter_sortInstructionsByDir, List.filter_append]
    by_cases hsk : ∃ k ∈ dedupKeyed ks, slot_by_racking k.needle cp.rack = s
    · obtain ⟨k0, hk0, hk0s⟩ := hsk
      have hk0K := hK'mem k0 hk0
      obtain ⟨⟨_, hk0f, _⟩, _⟩ := hks k0 hk0K
      have hsk0 : slot_by_racking k0.needle cp.rack = k0.needle.position := by
        unfold slot_by_racking
        rw [hk0f]
        simp
      have hLfe : cp.instructions.filter (fun i => slot_by_racking i.needle cp.rack == s)
          = [] := by
        refine List.filter_eq_nil_iff.mpr ?_
        intro j hj hq
        rw [beq_iff_eq] at hq
        have hons : instruction_on_slot cp k0.needle.position = true := by
          unfold instruction_on_slot
          refine List.any_eq_true.mpr ⟨j, hj, ?_⟩
          rw [beq_iff_eq, hq, ← hk0s, hsk0]
        rw [hslotf k0 hk0K] at hons
        cases hons
      rw [hLfe, List.nil_append]
      have hslotsN : (((dedupKeyed ks).filter
          (fun i => slot_by_racking i.needle cp.rack == s)).map
            (fun k => slot_by_racking k.needle cp.rack)).Nodup := by
        have hall : ((dedupKeyed ks).map (fun k => slot_by_racking k.needle cp.rack)).Nodup := by
          have hrw : (dedupKeyed ks).map (fun k => slot_by_racking k.needle cp.rack)
              = ((dedupKeyed ks).map (·.needle)).map (fun n => slot_by_racking n cp.rack) := by
            rw [List.map_map]
            rfl
          rw [hrw]
          refine List.Nodup.map_on ?_ hK'nodup
          intro n1 h1 n2 h2 heq
          rcases List.mem_map.mp h1 with ⟨x1, hx1, hn1⟩
          rcases List.mem_map.mp h2 with ⟨x2, hx2, hn2⟩
          obtain ⟨⟨_, hf1, hs1⟩, _⟩ := hks x1 (hK'mem x1 hx1)
          obtain ⟨⟨_, hf2, hs2⟩, _⟩ := hks x2 (hK'mem x2 hx2)
          subst hn1
          subst hn2
          unfold slot_by_racking at heq
          rw [hf1, hf2] at heq
          simp only [if_true] at heq
          rcases hX1 : x1.needle with ⟨b1, p1, sl1⟩
          rcases hX2 : x2.needle with ⟨b2, p2, sl2⟩
          rw [hX1] at hf1 hs1 heq
          rw [hX2] at hf2 hs2 heq
          simp_all
        exact hall.sublist ((List.filter_sublist _).map _)
      cases hfl : (dedupKeyed ks).filter (fun i => slot_by_racking i.needle cp.rack == s) with
      | nil => simp
      | cons x xs =>
        cases xs with
        | nil => exact List.chain'_singleton x
        | cons y ys =>
          exfalso
          rw [hfl] at hslotsN
          have hxmem : x ∈ (dedupKeyed ks).filter
              (fun i => slot_by_racking i.needle cp.rack == s) := by
            rw [hfl]; exact List.mem_cons_self _ _
          have hymem : y ∈ (dedupKeyed ks).filter
              (fun i => slot_by_racking i.needle cp.rack == s) := by
            rw [hfl]; exact List.mem_cons_of_mem _ (List.mem_cons_self _ _)
          have hxs := beq_iff_eq.mp (List.mem_filter.mp hxmem).2
          have hys := beq_iff_eq.mp (List.mem_filter.mp hymem).2
          simp only [List.map_cons, List.nodup_cons, List.mem_cons] at hslotsN
          exact hslotsN.1 (Or.inl (by rw [hxs, hys]))
    · have hKfe : (dedupKeyed ks).filter (fun i => slot_by_racking i.needle cp.rack == s)
          = [] := by
        refine List.filter_eq_nil_iff.mpr ?_
        intro x hx hq
        exact hsk ⟨x, hx, beq_iff_eq.mp hq⟩
      rw [hKfe, List.append_nil]
      exact chain_good_filter_ties f.dir cp.rack cp.allNeedle cp.instructions hchainL s
  have hchainO : List.Chain' (goodStep f.dir cp.rack cp.allNeedle)
      (sortInstructionsByDir f.dir cp.rack (cp.instructions ++ dedupKeyed ks)) :=
    chain_upgrade f.dir cp.rack cp.allNeedle _
      (chain_le_sortInstructionsByDir f.dir cp.rack _) hties
  have hOne : sortInstructionsByDir f.dir cp.rack (cp.instructions ++ dedupKeyed ks) ≠ [] := by
    intro hO
    have hlen := (perm_sortInstructionsByDir f.dir cp.rack
      (cp.instructions ++ dedupKeyed ks)).length_eq
    rw [hO] at hlen
    simp only [List.length_nil, List.length_append] at hlen
    cases hins : cp.instructions with
    | nil => exact hne hins
    | cons a t =>
      rw [hins] at hlen
      simp only [List.length_cons] at hlen
      omega
  have hOnodup : ((sortInstructionsByDir f.dir cp.rack
      (cp.instructions ++ dedupKeyed ks)).map (·.needle)).Nodup := by
    have hperm := (perm_sortInstructionsByDir f.dir cp.rack
      (cp.instructions ++ dedupKeyed ks)).map (·.needle)
    rw [List.Perm.nodup_iff hperm, List.map_append, List.nodup_append]
    refine ⟨hnd, hK'nodup, ?_⟩
    intro n hn hn'
    rcases List.mem_map.mp hn' with ⟨x, hx, hxn⟩
    exact hfreshN x (hK'mem x hx) (hxn ▸ hn)
  rw [hp]
  refine ⟨hOne, hOnodup, by simp [List.map_map], ?_⟩
  intro f' hf' hy'
  have hf'mem : f' ∈ sortInstructionsByDir f.dir cp.rack
      (cp.instructions ++ dedupKeyed ks) := by
    unfold first_instruction at hf'
    dsimp only at hf'
    exact List.mem_of_mem_head? (by rw [hf']; rfl)
  have hf'dir : f'.dir = f.dir := hOdir f' hf'mem
  constructor
  · intro x hx
    rw [hf'dir]
    exact hOdir x hx
  · dsimp only
    rw [hf'dir]
    exact hchainO

theorem builtPass_inv (cp : CarriagePass) (h : BuiltPass cp) : passInv cp := by
  induction h with
  | single i rack an => exact passInv_mk i rack an
  | add cp i rack an _ ih => exact passInv_add cp i rack an ih
  | merge cp next p b _ _ hm ihcp _ => exact passInv_merge cp next p b ihcp hm
  | kicks cp p ks first _ hf hks hres ih => exact passInv_add_kicks cp p ks first ih hf hks hres

/-- C3 (amended): every carriage pass of a directed class (knit-pass, Split or
Miss) built through `__init__`, `add_instruction`, `merge_carriage_pass` and
`add_kicks` — where each added kick carries the direction of the pass's first
instruction, the condition the counterexample shows the source does not check
— satisfies the consecutive-instruction ordering: every two consecutive
instructions are at the same slot on opposite beds in all-needle mode, or on
strictly increasing slots for a rightward pass, or strictly decreasing for a
leftward pass. -/
theorem c3_directed_pass_ordering (cp : CarriagePass) (hb : BuiltPass cp)
    (hd : directedPass cp) : goodPass cp := by
  obtain ⟨_, _, _, hdircl⟩ := builtPass_inv cp hb
  rw [goodPass_iff]
  unfold directedPass directedPassB at hd
  cases hf : first_instruction cp with
  | none => rw [hf] at hd; cases hd
  | some f =>
    rw [hf] at hd
    dsimp only at hd
    have hpd : passDir cp = f.dir := by
      unfold passDir
      rw [hf]
    rw [hpd]
    exact (hdircl f hf hd).2

theorem c3_directed_pass_ordering_witness :
    BuiltPass
        (add_instruction
          (mkCarriagePass
            { kind := NKind.knit, needle := ⟨true, 2, false⟩, dir := Dir.rightward,
              carriers := [1], needle2 := none, origLine := some 0 } 0 false)
          { kind := NKind.knit, needle := ⟨true, 3, false⟩, dir := Dir.rightward,
            carriers := [1], needle2 := none, origLine := some 1 } 0 false).2 ∧
    directedPass
        (add_instruction
          (mkCarriagePass
            { kind := NKind.knit, needle := ⟨true, 2, false⟩, dir := Dir.rightward,
              carriers := [1], needle2 := none, origLine := some 0 } 0 false)
          { kind := NKind.knit, needle := ⟨true, 3, false⟩, dir := Dir.rightward,
            carriers := [1], needle2 := none, origLine := some 1 } 0 false).2 ∧
    goodPass
        (add_instruction
          (mkCarriagePass
            { kind := NKind.knit, needle := ⟨true, 2, false⟩, dir := Dir.rightward,
              carriers := [1], needle2 := none, origLine := some 0 } 0 false)
          { kind := NKind.knit, needle := ⟨true, 3, false⟩, dir := Dir.rightward,
            carriers := [1], needle2 := none, origLine := some 1 } 0 false).2 :=
  ⟨BuiltPass.add _ _ 0 false (BuiltPass.single _ 0 false), by decide,
    c3_directed_pass_ordering _ (BuiltPass.add _ _ 0 false (BuiltPass.single _ 0 false))
      (by decide)⟩
